import Mathlib

/-!
# bblocks.cc : a shallow embedding of the block-device, socket, thread,
# utility and test-record code, with the properties proved about it

Machine integers are natural numbers or integers reduced explicitly to their
width. Calls into the kernel and the C library are parameters of the model.
A C++ function that may stop the process returns an `Outcome`.
-/

namespace BBlocks

/-! ## Machine integers -/

/-- Number of values of an unsigned 64-bit integer (`uint64_t`, `size_t`). -/
def UINT64_MOD : Nat := 2 ^ 64

/-- Conversion of an integer to `uint16_t`: reduction modulo 2^16. -/
def toUInt16 (x : Int) : Nat := (x % 65536).toNat

/-- Conversion of an integer to `int`: the value modulo 2^32 that lies in
-2^31..2^31-1. -/
def toInt32 (x : Int) : Int :=
  let r := x % 4294967296
  if r < 2147483648 then r else r - 4294967296

/-! ## core/assert.h -/

/-- The ways a call can end. `INVARIANT(x)` calls `abort()` when `x` is false
in every build; `ASSERT(x)` does so in a `DEBUG_BUILD` only and is empty
otherwise; `undefinedBehaviour` marks a read through a null pointer or past
the end of a vector. -/
inductive Outcome (α : Type) where
  | ret (a : α)
  | invariantHalt
  | assertHalt
  | undefinedBehaviour
  deriving DecidableEq, Repr

/-- Build parameters: whether `DEBUG_BUILD` is defined (it turns `ASSERT` on)
and the byte order of the host. -/
structure Build where
  debug : Bool
  littleEndian : Bool
  deriving DecidableEq, Repr

/-! ## core/fs/aio-linux.h : SpinningDevice -/

/-- The constant `SpinningDevice::SECTOR_SIZE`. -/
def SECTOR_SIZE : Nat := 512

/-- The data member of `SpinningDevice` that `GetDeviceSize` reads:
`const uint64_t nsectors_`. -/
structure SpinningDevice where
  nsectors_ : Nat
  deriving DecidableEq, Repr

/-- Modelled from the spec: the constructor `SpinningDevice(devPath, nsectors,
aio)` is only declared in the header; the device size is "supplied
externally", so the constructor stores the sector count it is given in the
`uint64_t` member `nsectors_`. -/
def SpinningDevice.create (nsectors : Nat) : SpinningDevice :=
  { nsectors_ := nsectors % UINT64_MOD }

/-- The method `SpinningDevice::GetDeviceSize`: `return nsectors_ * SECTOR_SIZE;`
in `uint64_t` arithmetic. -/
def SpinningDevice.GetDeviceSize (d : SpinningDevice) : Nat :=
  (d.nsectors_ * SECTOR_SIZE) % UINT64_MOD

/-! ## net/socket.h : SocketOptions -/

def IPPROTO_TCP : Int := 6
def TCP_NODELAY : Int := 1
def SOL_SOCKET : Int := 1
def SO_SNDBUF : Int := 7
def SO_RCVBUF : Int := 8

/-- The two kernel calls `SocketOptions` makes, over a kernel state `K`.
`setsockopt k fd level optname optval optlen` gives the status and the next
state; `getsockopt k fd level optname optval optlen` gives the status, the
content of the caller's `optval` variable after the call, and the next
state. -/
structure Kernel (K : Type) where
  setsockopt : K → Int → Int → Int → Int → Nat → Int × K
  getsockopt : K → Int → Int → Int → Int → Nat → Int × Int × K

/-- The function `SocketOptions::SetTcpNoDelay`. -/
def SetTcpNoDelay {K : Type} (kern : Kernel K) (k : K) (fd : Int) (enable : Bool) :
    Outcome (Bool × K) :=
  let flag : Int := if enable then 1 else 0
  let r := kern.setsockopt k fd IPPROTO_TCP TCP_NODELAY flag 4
  .ret (r.1 != -1, r.2)

/-- The function `SocketOptions::GetTcpNoDelay`: the result is the `int` flag
converted to `bool`. -/
def GetTcpNoDelay {K : Type} (kern : Kernel K) (k : K) (fd : Int) : Outcome (Bool × K) :=
  let r := kern.getsockopt k fd IPPROTO_TCP TCP_NODELAY 0 1
  if r.1 == -1 then .invariantHalt else .ret (r.2.1 != 0, r.2.2)

/-- The function `SocketOptions::SetTcpWindow`: the receive buffer is set only
after the send buffer was set. -/
def SetTcpWindow {K : Type} (kern : Kernel K) (k : K) (fd : Int) (size : Int) :
    Outcome (Bool × K) :=
  let r1 := kern.setsockopt k fd SOL_SOCKET SO_SNDBUF size 4
  if r1.1 == -1 then .ret (false, r1.2)
  else
    let r2 := kern.setsockopt r1.2 fd SOL_SOCKET SO_RCVBUF size 4
    .ret (r2.1 != -1, r2.2)

/-- The function `SocketOptions::GetTcpRcvBuffer`. -/
def GetTcpRcvBuffer {K : Type} (kern : Kernel K) (k : K) (fd : Int) : Outcome (Int × K) :=
  let r := kern.getsockopt k fd SOL_SOCKET SO_RCVBUF 0 4
  if r.1 == -1 then .invariantHalt else .ret (r.2.1, r.2.2)

/-- The function `SocketOptions::GetTcpSendBuffer`. -/
def GetTcpSendBuffer {K : Type} (kern : Kernel K) (k : K) (fd : Int) : Outcome (Int × K) :=
  let r := kern.getsockopt k fd SOL_SOCKET SO_SNDBUF 0 4
  if r.1 == -1 then .invariantHalt else .ret (r.2.1, r.2.2)

/-- A kernel without state in which every `setsockopt` and `getsockopt` fails
with -1 and leaves the caller's variable as it was (a closed descriptor). -/
def failingKernel : Kernel Unit :=
  { setsockopt := fun _ _ _ _ _ _ => (-1, ())
    getsockopt := fun _ _ _ _ optval _ => (-1, optval, ()) }

/-- A kernel whose state is the buffer size last set: `setsockopt` succeeds on
descriptor 3 only, `getsockopt` reports the stored size. -/
def bufferKernel : Kernel Int :=
  { setsockopt := fun k fd _ _ optval _ => if fd = 3 then (0, optval) else (-1, k)
    getsockopt := fun k fd _ _ optval _ => if fd = 3 then (0, k, k) else (-1, optval, k) }

/-! ## net/socket.h : SocketAddress -/

def AF_INET : Nat := 2
def INADDR_ANY : Nat := 0

/-- The C struct `sockaddr_in`: family, port as the `uint16_t` stored in the
field, IPv4 address, and the eight padding bytes `sin_zero`. -/
structure sockaddr_in where
  sin_family : Nat
  sin_port : Nat
  s_addr : Nat
  sin_zero : List Nat
  deriving DecidableEq, Repr

/-- The result of `memset(&addr, 0, sizeof(sockaddr_in))`. -/
def sockaddr_in.zeroed : sockaddr_in :=
  { sin_family := 0, sin_port := 0, s_addr := 0, sin_zero := List.replicate 8 0 }

/-- The C function `htons` on a `uint16_t`: a byte swap on a little-endian
host, the identity on a big-endian one. -/
def htons (b : Build) (x : Nat) : Nat :=
  if b.littleEndian then (x % 256) * 256 + x / 256 else x

/-- The two bytes a `uint16_t` occupies in memory, lowest address first. -/
def memBytes16 (b : Build) (v : Nat) : List Nat :=
  if b.littleEndian then [v % 256, v / 256] else [v / 256, v % 256]

/-- The part of the `addrinfo` that `getaddrinfo` hands back which `GetAddr`
reads: `ai_addrlen` and the IPv4 address inside `ai_addr`. -/
structure AddrInfo where
  ai_addrlen : Nat
  s_addr : Nat
  deriving DecidableEq, Repr

/-- The resolver `getaddrinfo(hostname, NULL, &hints, &result)`: the status it
returns and what `result` points to afterwards (`none` for `NULL`). -/
abbrev Resolver := List Char → Int × Option AddrInfo

/-- The function `SocketAddress::GetAddr(const string & hostname, const short port)`. -/
def GetAddrHost (b : Build) (getaddrinfo : Resolver) (hostname : List Char)
    (port : Int) : Outcome sockaddr_in :=
  let r := getaddrinfo hostname
  if r.1 == -1 then .invariantHalt
  else
    match r.2 with
    | none => if b.debug then .assertHalt else .undefinedBehaviour
    | some result =>
      if b.debug && result.ai_addrlen != 16 then .assertHalt
      else
        let addr := sockaddr_in.zeroed
        let addr := { addr with sin_family := AF_INET }
        let addr := { addr with sin_port := htons b (toUInt16 port) }
        let addr := { addr with s_addr := result.s_addr }
        .ret addr

/-- The function `SocketAddress::GetAddr(const in_addr_t & addr, const short port)`. -/
def GetAddrIp (b : Build) (addr : Nat) (port : Int) : sockaddr_in :=
  let sockaddr := sockaddr_in.zeroed
  let sockaddr := { sockaddr with sin_family := AF_INET }
  let sockaddr := { sockaddr with sin_port := htons b (toUInt16 port) }
  let sockaddr := { sockaddr with s_addr := addr }
  sockaddr

/-- The class `SocketAddress`: local and remote binding. -/
structure SocketAddress where
  laddr_ : sockaddr_in
  raddr_ : sockaddr_in
  deriving DecidableEq, Repr

/-- The constructor `explicit SocketAddress(const sockaddr_in & raddr)`. -/
def SocketAddress.ofRemote (b : Build) (raddr : sockaddr_in) : SocketAddress :=
  { laddr_ := GetAddrIp b INADDR_ANY 0, raddr_ := raddr }

def SocketAddress.LocalAddr (a : SocketAddress) : sockaddr_in := a.laddr_
def SocketAddress.RemoteAddr (a : SocketAddress) : sockaddr_in := a.raddr_

/-- A resolver that knows `localhost` only; any other name fails with
`EAI_NONAME` (-2 in glibc) and leaves `result` null. -/
def localResolver : Resolver := fun h =>
  if h = "localhost".toList then (0, some { ai_addrlen := 16, s_addr := 16777343 })
  else (-2, none)

/-- A release build on a little-endian host. -/
def releaseBuild : Build := { debug := false, littleEndian := true }

/-- A debug build on a little-endian host. -/
def debugBuild : Build := { debug := true, littleEndian := true }

/-! ## test/unit/net/test_rpc.cc : the composite record Data -/

/-- Sequencing of calls: the next call runs only when the one before it
returned. -/
def Outcome.bind {α β : Type} (x : Outcome α) (f : α → Outcome β) : Outcome β :=
  match x with
  | .ret a => f a
  | .invariantHalt => .invariantHalt
  | .assertHalt => .assertHalt
  | .undefinedBehaviour => .undefinedBehaviour

/-- An `IOBuffer`: a byte region of fixed length. -/
abbrev IOBuffer := List (Fin 256)

/-- The interface of a field type of `net/rpc-data.h` (`UInt16`, `String`,
`List<T>`, `Raw<N>`), a header that is not part of the sources: `Size()`,
`Encode(buf, pos)` which writes into the buffer and moves the position, and
`Decode(buf, pos)` which overwrites the field from the buffer and moves the
position. -/
structure FieldCodec (α : Type) where
  Size : α → Nat
  Encode : α → IOBuffer → Nat → Outcome (IOBuffer × Nat)
  Decode : α → IOBuffer → Nat → Outcome (α × Nat)

/-- The field types `Data` is built from, their codecs, and the three
`sizeof` constants `Data::Size` uses; all come from `net/rpc-data.h`. -/
structure RpcTypes where
  UInt16 : Type
  UInt32 : Type
  UInt64 : Type
  String : Type
  ListUInt32 : Type
  ListUInt64 : Type
  ListString : Type
  Raw10 : Type
  cUInt16 : FieldCodec UInt16
  cUInt32 : FieldCodec UInt32
  cUInt64 : FieldCodec UInt64
  cString : FieldCodec String
  cListUInt32 : FieldCodec ListUInt32
  cListUInt64 : FieldCodec ListUInt64
  cListString : FieldCodec ListString
  cRaw10 : FieldCodec Raw10
  sizeofUInt16 : Nat
  sizeofUInt32 : Nat
  sizeofUInt64 : Nat

/-- The struct `Data` of test_rpc.cc. -/
structure Data (R : RpcTypes) where
  i16_ : R.UInt16
  i32_ : R.UInt32
  i64_ : R.UInt64
  str_ : R.String
  lu32_ : R.ListUInt32
  lu64_ : R.ListUInt64
  lstr_ : R.ListString
  raw_ : R.Raw10

/-- The method `Data::Encode(IOBuffer & buf, size_t & pos)`. -/
def Data.Encode {R : RpcTypes} (d : Data R) (buf : IOBuffer) (pos : Nat) :
    Outcome (IOBuffer × Nat) :=
  (R.cUInt16.Encode d.i16_ buf pos).bind fun s =>
  (R.cUInt32.Encode d.i32_ s.1 s.2).bind fun s =>
  (R.cUInt64.Encode d.i64_ s.1 s.2).bind fun s =>
  (R.cString.Encode d.str_ s.1 s.2).bind fun s =>
  (R.cListUInt32.Encode d.lu32_ s.1 s.2).bind fun s =>
  (R.cListUInt64.Encode d.lu64_ s.1 s.2).bind fun s =>
  (R.cListString.Encode d.lstr_ s.1 s.2).bind fun s =>
  (R.cRaw10.Encode d.raw_ s.1 s.2).bind fun s =>
  .ret s

/-- The method `Data::Decode(IOBuffer & buf, size_t & pos)`: each field of the
record is overwritten in turn; the result is the record afterwards and the
final position. -/
def Data.Decode {R : RpcTypes} (d : Data R) (buf : IOBuffer) (pos : Nat) :
    Outcome (Data R × Nat) :=
  (R.cUInt16.Decode d.i16_ buf pos).bind fun r1 =>
  (R.cUInt32.Decode d.i32_ buf r1.2).bind fun r2 =>
  (R.cUInt64.Decode d.i64_ buf r2.2).bind fun r3 =>
  (R.cString.Decode d.str_ buf r3.2).bind fun r4 =>
  (R.cListUInt32.Decode d.lu32_ buf r4.2).bind fun r5 =>
  (R.cListUInt64.Decode d.lu64_ buf r5.2).bind fun r6 =>
  (R.cListString.Decode d.lstr_ buf r6.2).bind fun r7 =>
  (R.cRaw10.Decode d.raw_ buf r7.2).bind fun r8 =>
  .ret ({ i16_ := r1.1, i32_ := r2.1, i64_ := r3.1, str_ := r4.1, lu32_ := r5.1,
          lu64_ := r6.1, lstr_ := r7.1, raw_ := r8.1 }, r8.2)

/-- The method `Data::Size()`. The return statement ends after
`lstr_.Size()`; the next statement `+ raw_.Size();` is evaluated and its value
dropped. -/
def Data.Size {R : RpcTypes} (d : Data R) : Nat :=
  let result := (R.sizeofUInt16 + R.sizeofUInt32 + R.sizeofUInt64 + R.cString.Size d.str_
    + R.cListUInt32.Size d.lu32_ + R.cListUInt64.Size d.lu64_
    + R.cListString.Size d.lstr_) % UINT64_MOD
  let _dropped := R.cRaw10.Size d.raw_
  result

/-- The sum over all eight fields: the expression of `Data::Size` with the
stray semicolon removed, as a mathematical sum. -/
def Data.sumAllFields {R : RpcTypes} (d : Data R) : Nat :=
  R.sizeofUInt16 + R.sizeofUInt32 + R.sizeofUInt64 + R.cString.Size d.str_
    + R.cListUInt32.Size d.lu32_ + R.cListUInt64.Size d.lu64_
    + R.cListString.Size d.lstr_ + R.cRaw10.Size d.raw_

/-- The number of bytes the encoding of a record takes: the sum of what the
eight field codecs report as their size. -/
def Data.encodedSize {R : RpcTypes} (d : Data R) : Nat :=
  R.cUInt16.Size d.i16_ + R.cUInt32.Size d.i32_ + R.cUInt64.Size d.i64_
    + R.cString.Size d.str_ + R.cListUInt32.Size d.lu32_ + R.cListUInt64.Size d.lu64_
    + R.cListString.Size d.lstr_ + R.cRaw10.Size d.raw_

/-- Two buffers hold the same bytes at the positions from `lo` up to `hi`
(excluded). -/
def Agree (b1 b2 : IOBuffer) (lo hi : Nat) : Prop :=
  ∀ i, lo ≤ i → i < hi → b1[i]? = b2[i]?

/-- An encoder and a decoder round-trip the value `v` in `n` bytes: in every
buffer with `n` bytes left from the position, the encoder returns, moves the
position by `n`, keeps the length of the buffer and every byte outside the `n`
it owns; and the decoder, on any buffer of that length holding the same `n`
bytes there, returns `v` and moves the position by `n`. -/
def RoundTrips {β : Type} (enc : IOBuffer → Nat → Outcome (IOBuffer × Nat))
    (dec : IOBuffer → Nat → Outcome (β × Nat)) (v : β) (n : Nat) : Prop :=
  ∀ (b : IOBuffer) (p : Nat), p + n ≤ b.length →
    ∃ b1 : IOBuffer, enc b p = .ret (b1, p + n) ∧ b1.length = b.length ∧
      (∀ i, i < p ∨ p + n ≤ i → b1[i]? = b[i]?) ∧
      ∀ b2 : IOBuffer, b2.length = b1.length → Agree b2 b1 p (p + n) →
        dec b2 p = .ret (v, p + n)

/-- The assumption on a field codec: it round-trips every value in `Size()`
bytes, whatever the field held before decoding. -/
def FieldCodec.Lawful {α : Type} (c : FieldCodec α) : Prop :=
  ∀ v old : α, RoundTrips (c.Encode v) (c.Decode old) v (c.Size v)

/-- Every field codec of the record round-trips. -/
structure RpcTypes.Lawful (R : RpcTypes) : Prop where
  hUInt16 : R.cUInt16.Lawful
  hUInt32 : R.cUInt32.Lawful
  hUInt64 : R.cUInt64.Lawful
  hString : R.cString.Lawful
  hListUInt32 : R.cListUInt32.Lawful
  hListUInt64 : R.cListUInt64.Lawful
  hListString : R.cListString.Lawful
  hRaw10 : R.cRaw10.Lawful

/-! ### A concrete instance of the field types

The header net/rpc-data.h is not part of the sources. The codecs below follow
the description "fixed-width integers, length-prefixed strings,
length-prefixed lists of the above, fixed-size raw blocks" and serve as the
instance at which the general statements are evaluated. -/

/-- Overwrite the bytes at `p` with `bs`; the buffer must have room. -/
def writeBytes (bs : List (Fin 256)) (b : IOBuffer) (p : Nat) : Outcome (IOBuffer × Nat) :=
  if p + bs.length ≤ b.length then
    .ret (b.take p ++ bs ++ b.drop (p + bs.length), p + bs.length)
  else .invariantHalt

/-- Read `n` bytes at `p`; the buffer must hold them. -/
def readBytes (n : Nat) (b : IOBuffer) (p : Nat) : Outcome (List (Fin 256) × Nat) :=
  if p + n ≤ b.length then .ret ((b.drop p).take n, p + n) else .invariantHalt

/-- The `n` low bytes of `x`, lowest first. -/
def leBytes : Nat → Nat → List (Fin 256)
  | 0, _ => []
  | n + 1, x => ⟨x % 256, Nat.mod_lt x (by decide)⟩ :: leBytes n (x / 256)

/-- The number whose bytes, lowest first, are given. -/
def ofLeBytes : List (Fin 256) → Nat
  | [] => 0
  | b :: bs => b.val + 256 * ofLeBytes bs

/-- Modelled from the spec: a fixed-width unsigned integer of `n` bytes
(`UInt16`, `UInt32`, `UInt64` of net/rpc-data.h, which is missing). -/
def uintCodec (n : Nat) : FieldCodec (Fin (256 ^ n)) where
  Size _ := n
  Encode v := writeBytes (leBytes n v.val)
  Decode _ b p := (readBytes n b p).bind fun r =>
    if h : ofLeBytes r.1 < 256 ^ n then .ret (⟨ofLeBytes r.1, h⟩, r.2) else .invariantHalt

/-- A block of exactly `n` bytes. -/
abbrev Bytes (n : Nat) := { l : List (Fin 256) // l.length = n }

/-- Modelled from the spec: a fixed-size raw block (`Raw<N>` of
net/rpc-data.h, which is missing). -/
def rawCodec (n : Nat) : FieldCodec (Bytes n) where
  Size _ := n
  Encode v := writeBytes v.val
  Decode _ b p := (readBytes n b p).bind fun r =>
    if h : r.1.length = n then .ret (⟨r.1, h⟩, r.2) else .invariantHalt

/-- Encode the elements of a list one after the other. -/
def encodeAll {α : Type} (c : FieldCodec α) : List α → IOBuffer → Nat → Outcome (IOBuffer × Nat)
  | [], b, p => .ret (b, p)
  | x :: xs, b, p => (c.Encode x b p).bind fun s => encodeAll c xs s.1 s.2

/-- Decode `n` elements one after the other, each into a fresh element. -/
def decodeN {α : Type} (c : FieldCodec α) (fresh : α) : Nat → IOBuffer → Nat → Outcome (List α × Nat)
  | 0, _, p => .ret ([], p)
  | n + 1, b, p => (c.Decode fresh b p).bind fun r =>
      (decodeN c fresh n b r.2).bind fun rs => .ret (r.1 :: rs.1, rs.2)

/-- A list whose length fits the four-byte count in front of it. -/
abbrev CountedList (α : Type) := { l : List α // l.length < 256 ^ 4 }

/-- Modelled from the spec: a length-prefixed list (`List<T>` and, over single
bytes, `String` of net/rpc-data.h, which is missing): a four-byte count, then
the elements. -/
def listCodec {α : Type} (c : FieldCodec α) (fresh : α) : FieldCodec (CountedList α) where
  Size l := 4 + (l.val.map c.Size).sum
  Encode l b p := (writeBytes (leBytes 4 l.val.length) b p).bind fun s =>
    encodeAll c l.val s.1 s.2
  Decode _ b p := (readBytes 4 b p).bind fun r =>
    (decodeN c fresh (ofLeBytes r.1) b r.2).bind fun rs =>
      if h : rs.1.length < 256 ^ 4 then .ret (⟨rs.1, h⟩, rs.2) else .invariantHalt

/-- The instance of the field types: integers of 2, 4 and 8 bytes, strings as
counted lists of one-byte characters, counted lists, a raw block of 10 bytes.
The three `sizeof` constants are taken to be the widths of the integers. -/
def testTypes : RpcTypes where
  UInt16 := Fin (256 ^ 2)
  UInt32 := Fin (256 ^ 4)
  UInt64 := Fin (256 ^ 8)
  String := CountedList (Fin (256 ^ 1))
  ListUInt32 := CountedList (Fin (256 ^ 4))
  ListUInt64 := CountedList (Fin (256 ^ 8))
  ListString := CountedList (CountedList (Fin (256 ^ 1)))
  Raw10 := Bytes 10
  cUInt16 := uintCodec 2
  cUInt32 := uintCodec 4
  cUInt64 := uintCodec 8
  cString := listCodec (uintCodec 1) ⟨0, by decide⟩
  cListUInt32 := listCodec (uintCodec 4) ⟨0, by decide⟩
  cListUInt64 := listCodec (uintCodec 8) ⟨0, by decide⟩
  cListString := listCodec (listCodec (uintCodec 1) ⟨0, by decide⟩) ⟨[], by decide⟩
  cRaw10 := rawCodec 10
  sizeofUInt16 := 2
  sizeofUInt32 := 4
  sizeofUInt64 := 8

/-- The record `data` that `test_datatypes` fills in: 257, 55, 555, "5555",
{2, 4, 16}, {32, 64, 128}, {"a", "b", "c"} and the raw bytes 0..9. -/
def testData : Data testTypes where
  i16_ := ⟨257, by decide⟩
  i32_ := ⟨55, by decide⟩
  i64_ := ⟨555, by decide⟩
  str_ := ⟨[⟨53, by decide⟩, ⟨53, by decide⟩, ⟨53, by decide⟩, ⟨53, by decide⟩], by decide⟩
  lu32_ := ⟨[⟨2, by decide⟩, ⟨4, by decide⟩, ⟨16, by decide⟩], by decide⟩
  lu64_ := ⟨[⟨32, by decide⟩, ⟨64, by decide⟩, ⟨128, by decide⟩], by decide⟩
  lstr_ := ⟨[⟨[⟨97, by decide⟩], by decide⟩, ⟨[⟨98, by decide⟩], by decide⟩,
    ⟨[⟨99, by decide⟩], by decide⟩], by decide⟩
  raw_ := ⟨[0, 1, 2, 3, 4, 5, 6, 7, 8, 9], by decide⟩

/-- The record `data2` of `test_datatypes` before decoding: every field
empty. -/
def freshData : Data testTypes where
  i16_ := ⟨0, by decide⟩
  i32_ := ⟨0, by decide⟩
  i64_ := ⟨0, by decide⟩
  str_ := ⟨[], by decide⟩
  lu32_ := ⟨[], by decide⟩
  lu64_ := ⟨[], by decide⟩
  lstr_ := ⟨[], by decide⟩
  raw_ := ⟨[0, 0, 0, 0, 0, 0, 0, 0, 0, 0], by decide⟩

/-! ## test/unit/schd/test_th_message.cc : Caller, Callee and the scheduler -/

/-- The constant `Callee::MAX_CALLS`. -/
def MAX_CALLS : Int := 1000

/-- The class `Caller`: `h_` is the `ICallee *` it was bound to; the test has
one `Callee`, so a non-null pointer can only point to it. -/
structure Caller where
  h_ : Option Unit
  deriving DecidableEq, Repr

/-- A deferred call handed to `BBlocks::Schedule`: target, member function and
argument. -/
inductive Call where
  | callerStart (caller : Caller) (val : Int)
  | calleeHandle (val : Int)
  deriving DecidableEq, Repr

/-- The state of the test: the iterations the loop of `test_handler` has still
to make, the calls enqueued and not yet run, `Callee::count_`, and what was
observed: the argument of every `Handle` with the count it produced, and the
count at every call of `BBlocks::Wakeup`; `halted` is set when an `ASSERT`
stops the process. -/
structure World where
  toSchedule : Nat
  queue : List Call
  count_ : Int
  handled : List (Int × Int)
  wakeups : List Int
  halted : Bool
  deriving DecidableEq, Repr

/-- Modelled from the spec: `BBlocks::Schedule(target, operation, args)`
(schd/thread-pool.h is missing) "enqueues a deferred invocation; it never
blocks the caller and never executes inline". -/
def Schedule (c : Call) (w : World) : World :=
  { w with queue := w.queue ++ [c] }

/-- Modelled from the spec: `BBlocks::Wakeup()` (missing) signals the thread
parked in `Wait`; the model records the call. -/
def Wakeup (w : World) : World :=
  { w with wakeups := w.wakeups ++ [w.count_] }

/-- The method `Callee::Handle(int val)`; `++count_` on the `atomic<int>` is one
indivisible step. -/
def Callee.Handle (b : Build) (val : Int) (w : World) : World :=
  if b.debug && val != 0xfeaf then { w with halted := true }
  else
    let w := { w with count_ := toInt32 (w.count_ + 1) }
    let w := { w with handled := w.handled ++ [(val, w.count_)] }
    if w.count_ == MAX_CALLS then Wakeup w else w

/-- The method `Caller::Start(int val)`. With a null `h_` a debug build stops
on the assertion; a release build would enqueue a call on a null target, which
the model treats as a stop too. -/
def Caller.Start (caller : Caller) (val : Int) (w : World) : World :=
  match caller.h_ with
  | none => { w with halted := true }
  | some _ => Schedule (.calleeHandle val) w

/-- Run one deferred call. -/
def Call.exec (b : Build) : Call → World → World
  | .callerStart caller val, w => caller.Start val w
  | .calleeHandle val, w => Callee.Handle b val w

/-- The `Caller caller(&callee)` of `test_handler`. -/
def testCaller : Caller := { h_ := some () }

/-- What can happen next: the main thread makes one more iteration of the loop
in `test_handler`, or a worker thread takes the pending call at some index of
the queue and runs it to completion. -/
inductive Step where
  | mainLoop
  | worker (pick : Nat)
  deriving DecidableEq, Repr

/-- One step; `none` when the step cannot happen (the loop is over, no call
at that index, or the process was stopped). A worker removes the call it runs
from the queue, so every enqueued call runs at most once. -/
def step (b : Build) (w : World) : Step → Option World
  | .mainLoop =>
    if w.halted then none
    else if w.toSchedule = 0 then none
    else some (Schedule (.callerStart testCaller 0xfeaf) { w with toSchedule := w.toSchedule - 1 })
  | .worker pick =>
    if w.halted then none
    else
      match w.queue[pick]? with
      | none => none
      | some c => some (c.exec b { w with queue := w.queue.eraseIdx pick })

/-- A sequence of steps. -/
def run (b : Build) : List Step → World → Option World
  | [], w => some w
  | s :: rest, w =>
    match step b w s with
    | none => none
    | some w1 => run b rest w1

/-- The state when `test_handler` enters its loop: `MAX_CALLS` iterations to
make, nothing enqueued, `count_` zero. -/
def initialWorld : World :=
  { toSchedule := 1000, queue := [], count_ := 0, handled := [], wakeups := [], halted := false }

/-- The steps a pending call still needs: two for a `Caller::Start` (itself and
the `Handle` it schedules), one for a `Handle`. -/
def Call.weight : Call → Nat
  | .callerStart _ _ => 2
  | .calleeHandle _ => 1

/-- The number of steps left before all work has run. -/
def pendingSteps (w : World) : Nat :=
  3 * w.toSchedule + (w.queue.map Call.weight).sum

/-- All work has run: the loop is over and no call is pending. -/
def World.quiescent (w : World) : Prop :=
  w.toSchedule = 0 ∧ w.queue = []

/-- What holds of every state the test can reach: the process was not
stopped, every pending call is `Caller::Start(0xfeaf)` on the test's caller or
`Handle(0xfeaf)`, the iterations left, the pending calls and `count_` add up
to 1000, `Handle` was observed `count_` times with 0xfeaf, and `Wakeup` was
called once if `count_` is 1000 and not at all before. -/
def World.Inv (w : World) : Prop :=
  w.halted = false ∧
  (∀ c ∈ w.queue, c = Call.callerStart testCaller 0xfeaf ∨ c = Call.calleeHandle 0xfeaf) ∧
  ∃ n : Nat, w.count_ = (n : Int) ∧ w.toSchedule + w.queue.length + n = 1000 ∧
    w.handled = (List.range n).map (fun (i : Nat) => ((0xfeaf : Int), (i : Int) + 1)) ∧
    w.wakeups = if n = 1000 then [1000] else []

/-- A run of five steps: two iterations of the loop, a worker runs the first
`Caller::Start`, a worker runs the `Handle` it scheduled, one more iteration. -/
def sampleSchedule : List Step :=
  [Step.mainLoop, Step.mainLoop, Step.worker 0, Step.worker 1, Step.mainLoop]

/-- The state after `sampleSchedule`. -/
def sampleWorld : World :=
  { toSchedule := 997,
    queue := [Call.callerStart testCaller 0xfeaf, Call.callerStart testCaller 0xfeaf],
    count_ := 1, handled := [(0xfeaf, 1)], wakeups := [], halted := false }

/-! ## schd/thread.cc : Thread::ThFn -/

/-- What is observed of a thread: the thread-local context is initialised for
a thread, `ThreadMain` of a thread does something of its own, the context is
cleaned up. -/
inductive ThreadEvent where
  | ctxInit (th : Nat)
  | mainEvent (th : Nat) (e : Nat)
  | ctxCleanup
  deriving DecidableEq, Repr

/-- The state local to one OS thread: the `Thread` its context is initialised
for, if any, and the events so far. -/
structure ThreadLocal where
  ctx : Option Nat
  trace : List ThreadEvent
  deriving DecidableEq, Repr

/-- A `Thread` object: its address (not null) and the body of its virtual
`ThreadMain`, which sees the thread-local context, does things of its own and
returns a `void *` status. -/
structure Thread where
  addr : Nat
  body : Option Nat → List Nat × Nat

/-- Modelled from the spec: `ThreadCtx::Init(th)` (schd/thread-ctx.h is
missing) initialises the thread-local context with the identity of the
thread. -/
def ThreadCtx.Init (th : Thread) (w : ThreadLocal) : ThreadLocal :=
  { ctx := some th.addr, trace := w.trace ++ [ThreadEvent.ctxInit th.addr] }

/-- Modelled from the spec: `ThreadCtx::Cleanup()` (schd/thread-ctx.h is
missing) tears the thread-local context down. -/
def ThreadCtx.Cleanup (w : ThreadLocal) : ThreadLocal :=
  { ctx := none, trace := w.trace ++ [ThreadEvent.ctxCleanup] }

/-- The virtual call `th->ThreadMain()`. -/
def Thread.ThreadMain (th : Thread) (w : ThreadLocal) : Nat × ThreadLocal :=
  let r := th.body w.ctx
  (r.2, { w with trace := w.trace ++ r.1.map (ThreadEvent.mainEvent th.addr) })

/-- The function `Thread::ThFn(void * args)`; `none` is a null `args`. -/
def Thread.ThFn (args : Option Thread) (w : ThreadLocal) : Outcome (Nat × ThreadLocal) :=
  match args with
  | none => .invariantHalt
  | some th =>
    let w := ThreadCtx.Init th w
    let r := th.ThreadMain w
    let thstatus := r.1
    let w := ThreadCtx.Cleanup r.2
    .ret (thstatus, w)

/-- Is the event an initialisation of the context. -/
def ThreadEvent.isInit : ThreadEvent → Bool
  | .ctxInit _ => true
  | _ => false

/-- Is the event a cleanup of the context. -/
def ThreadEvent.isCleanup : ThreadEvent → Bool
  | .ctxCleanup => true
  | _ => false

/-! ## util.hpp : Math, Adler32, StateMachine, BoundedQ -/

/-- The function `Math::Roundup(const size_t n, const size_t s)`:
`INVARIANT(s)`, then `((n / s) + (n % s ? 1 : 0)) * s` in `size_t`
arithmetic. -/
def Math.Roundup (n s : Nat) : Outcome Nat :=
  if s = 0 then .invariantHalt
  else .ret ((((n / s + (if n % s ≠ 0 then 1 else 0)) % UINT64_MOD) * s) % UINT64_MOD)

/-- The constant `BASE` of zlib, the largest prime below 65536. -/
def ADLER_BASE : Nat := 65521

/-- The two running sums of zlib `adler32` after the bytes, not yet reduced:
the first sum grows by each byte, the second by each value of the first. -/
def adlerSums (s1 s2 : Nat) (bytes : List (Fin 256)) : Nat × Nat :=
  bytes.foldl (fun st b => (st.1 + b.val, st.2 + (st.1 + b.val))) (s1, s2)

/-- The zlib function `adler32(adler, buf, len)` (an external library, zlib.h):
the low and the high 16 bits of `adler` seed the two sums; a null `buf`
(`none`) gives the initial value 1, except that the case `len == 1` reads
`buf[0]` before that test; otherwise the first `len` bytes are added and both
sums reduced modulo `BASE`. zlib reduces after blocks of bytes so that nothing
overflows, which gives the sums reduced at the end. -/
def adler32 (adler : Nat) (buf : Option (List (Fin 256))) (len : Nat) : Outcome Nat :=
  let sum2 := (adler / 65536) % 65536
  let sum1 := adler % 65536
  match buf with
  | none => if len = 1 then .undefinedBehaviour else .ret 1
  | some bytes =>
    if bytes.length < len then .undefinedBehaviour
    else
      let r := adlerSums sum1 sum2 (bytes.take len)
      .ret (r.1 % ADLER_BASE + (r.2 % ADLER_BASE) * 65536)

/-- The function `Adler32::Calc(uint8_t * data, const uint32_t size)`:
`return adler32(/*cksum=*/ 0, data, size);` as a `uint32_t`. -/
def Adler32.Calc (data : Option (List (Fin 256))) (size : Nat) : Outcome Nat :=
  (adler32 0 data size).bind fun r => .ret (r % 4294967296)

/-- The class `Adler32`: the running checksum `cksum_`. -/
structure Adler32 where
  cksum_ : Nat
  deriving DecidableEq, Repr

/-- The constructor `Adler32() : cksum_(0)`. -/
def Adler32.create : Adler32 := { cksum_ := 0 }

/-- The method `Adler32::Update(uint8_t * data, const uint32_t size)`. -/
def Adler32.Update (a : Adler32) (data : Option (List (Fin 256))) (size : Nat) :
    Outcome Adler32 :=
  (adler32 a.cksum_ data size).bind fun r => .ret { cksum_ := r % 4294967296 }

/-- The method `Adler32::Hash`. -/
def Adler32.Hash (a : Adler32) : Nat := a.cksum_

/-- The method `Adler32::Reset`. -/
def Adler32.Reset (_a : Adler32) : Adler32 := { cksum_ := 0 }

/-- The Adler-32 checksum as the algorithm defines it: A after k bytes is one
plus the sum of the first k bytes, modulo 65521; B is the sum of the values of
A after each byte, modulo 65521; the checksum is B * 65536 + A. -/
def adler32Defined (bytes : List (Fin 256)) : Nat :=
  let A (k : Nat) : Nat := (1 + ((bytes.take k).map Fin.val).sum) % 65521
  let B : Nat := (((List.range bytes.length).map (fun k => A (k + 1))).sum) % 65521
  B * 65536 + A bytes.length

/-- The class `StateMachine<T>` for a `T` whose values are unsigned integers
(an enum of state bits): the current state. -/
structure StateMachine where
  state_ : Nat
  deriving DecidableEq, Repr

/-- The method `StateMachine::MoveTo(const T & to, const unsigned int & from)`:
the result and the machine afterwards (`target` and `frm` stand for `to` and
`from`). -/
def StateMachine.MoveTo (b : Build) (sm : StateMachine) (target frm : Nat) :
    Outcome (Bool × StateMachine) :=
  if b.debug && frm == 0 then .assertHalt
  else if sm.state_ &&& frm ≠ 0 then .ret (true, { sm with state_ := target })
  else .ret (false, sm)

/-- The method `StateMachine::Is(const unsigned & states) const`: the result,
`state_ & states` converted to `bool`, and the machine afterwards. -/
def StateMachine.Is (b : Build) (sm : StateMachine) (states : Nat) :
    Outcome (Bool × StateMachine) :=
  if b.debug && states == 0 then .assertHalt
  else .ret (sm.state_ &&& states != 0, sm)

/-- The method `StateMachine::state`. -/
def StateMachine.state (sm : StateMachine) : Nat := sm.state_

/-- The class `BoundedQ<T>`: the vector `q_`, front first. -/
structure BoundedQ (α : Type) where
  q_ : List α
  deriving DecidableEq, Repr

/-- The constructor `BoundedQ(const size_t capacity)`: `q_.reserve(capacity)`
allocates and leaves the vector empty. -/
def BoundedQ.create {α : Type} (_capacity : Nat) : BoundedQ α := { q_ := [] }

/-- The method `BoundedQ::Push`: `q_.push_back(t)`. -/
def BoundedQ.Push {α : Type} (q : BoundedQ α) (t : α) : BoundedQ α :=
  { q_ := q.q_ ++ [t] }

/-- The method `BoundedQ::IsEmpty`. -/
def BoundedQ.IsEmpty {α : Type} (q : BoundedQ α) : Bool := q.q_.isEmpty

/-- The method `BoundedQ::Size`. -/
def BoundedQ.Size {α : Type} (q : BoundedQ α) : Nat := q.q_.length

/-- The method `BoundedQ::Pop`: the front element and the queue after
`q_.erase(q_.begin())`; `front()` of an empty vector is undefined. -/
def BoundedQ.Pop {α : Type} (q : BoundedQ α) : Outcome (α × BoundedQ α) :=
  match q.q_ with
  | [] => .undefinedBehaviour
  | t :: rest => .ret (t, { q_ := rest })

/-- The method `BoundedQ::Front`. -/
def BoundedQ.Front {α : Type} (q : BoundedQ α) : Outcome α :=
  match q.q_ with
  | [] => .undefinedBehaviour
  | t :: _ => .ret t

/-- The method `BoundedQ::Clear`. -/
def BoundedQ.Clear {α : Type} (_q : BoundedQ α) : BoundedQ α := { q_ := [] }

/-- The queue after pushing the elements of a list in order. -/
def BoundedQ.pushAll {α : Type} (q : BoundedQ α) (xs : List α) : BoundedQ α :=
  xs.foldl BoundedQ.Push q

/-- The results of `k` successive calls of `Pop`, in order, and the queue
afterwards. -/
def BoundedQ.popN {α : Type} : Nat → BoundedQ α → Outcome (List α × BoundedQ α)
  | 0, q => .ret ([], q)
  | k + 1, q => q.Pop.bind fun r => (BoundedQ.popN k r.2).bind fun rs =>
      .ret (r.1 :: rs.1, rs.2)

/-! # Theorems -/

/-! ## SpinningDevice -/

/-- C1: for every sector count given at construction, GetDeviceSize returns
the sector count times 512 reduced modulo 2^64, and that is the mathematical
product whenever the product is below 2^64. -/
theorem GetDeviceSize_eq (n : Nat) :
    (SpinningDevice.create n).GetDeviceSize = (n * 512) % 2 ^ 64 ∧
    (n * 512 < 2 ^ 64 → (SpinningDevice.create n).GetDeviceSize = n * 512) := by
  have h1 : (SpinningDevice.create n).GetDeviceSize = (n * 512) % 2 ^ 64 := by
    simp only [SpinningDevice.GetDeviceSize, SpinningDevice.create, SECTOR_SIZE, UINT64_MOD]
    rw [Nat.mul_mod, Nat.mod_mod, ← Nat.mul_mod]
  exact ⟨h1, fun h => by rw [h1, Nat.mod_eq_of_lt h]⟩

/-- C1 at a device of 2^30 sectors (512 GiB): the size is 2^39 bytes. -/
theorem GetDeviceSize_eq_witness :
    (SpinningDevice.create 1073741824).GetDeviceSize = 549755813888 :=
  (GetDeviceSize_eq 1073741824).2 (by decide)

/-! ## SocketOptions -/

/-- C7 as stated does not hold: in a kernel whose getsockopt fails with -1
the three getters stop the process on their invariant instead of returning a
sentinel. -/
theorem getters_halt_when_getsockopt_fails :
    (failingKernel.getsockopt () 3 SOL_SOCKET SO_RCVBUF 0 4).1 = -1 ∧
    GetTcpRcvBuffer failingKernel () 3 = Outcome.invariantHalt ∧
    GetTcpSendBuffer failingKernel () 3 = Outcome.invariantHalt ∧
    GetTcpNoDelay failingKernel () 3 = Outcome.invariantHalt := by
  refine ⟨rfl, rfl, rfl, rfl⟩

/-- C7 amended: for every kernel, state, descriptor and argument, the setters
SetTcpNoDelay and SetTcpWindow always return, with true exactly when every
kernel call they made did not fail with -1 (SetTcpWindow makes no second call
after a failed first one); the getters GetTcpNoDelay, GetTcpRcvBuffer and
GetTcpSendBuffer stop the process on their invariant exactly when getsockopt
fails with -1 and otherwise return the value the kernel stored. -/
theorem SocketOptions_failure_contract {K : Type} (kern : Kernel K) (k : K)
    (fd size : Int) (enable : Bool) :
    (∃ r k1, SetTcpNoDelay kern k fd enable = Outcome.ret (r, k1) ∧
      (r = true ↔
        (kern.setsockopt k fd IPPROTO_TCP TCP_NODELAY (if enable then 1 else 0) 4).1 ≠ -1)) ∧
    (∃ r k1, SetTcpWindow kern k fd size = Outcome.ret (r, k1) ∧
      (r = true ↔
        (kern.setsockopt k fd SOL_SOCKET SO_SNDBUF size 4).1 ≠ -1 ∧
        (kern.setsockopt (kern.setsockopt k fd SOL_SOCKET SO_SNDBUF size 4).2
          fd SOL_SOCKET SO_RCVBUF size 4).1 ≠ -1) ∧
      ((kern.setsockopt k fd SOL_SOCKET SO_SNDBUF size 4).1 = -1 →
        k1 = (kern.setsockopt k fd SOL_SOCKET SO_SNDBUF size 4).2)) ∧
    (GetTcpNoDelay kern k fd =
      if (kern.getsockopt k fd IPPROTO_TCP TCP_NODELAY 0 1).1 = -1 then Outcome.invariantHalt
      else Outcome.ret ((kern.getsockopt k fd IPPROTO_TCP TCP_NODELAY 0 1).2.1 != 0,
        (kern.getsockopt k fd IPPROTO_TCP TCP_NODELAY 0 1).2.2)) ∧
    (GetTcpRcvBuffer kern k fd =
      if (kern.getsockopt k fd SOL_SOCKET SO_RCVBUF 0 4).1 = -1 then Outcome.invariantHalt
      else Outcome.ret (kern.getsockopt k fd SOL_SOCKET SO_RCVBUF 0 4).2) ∧
    (GetTcpSendBuffer kern k fd =
      if (kern.getsockopt k fd SOL_SOCKET SO_SNDBUF 0 4).1 = -1 then Outcome.invariantHalt
      else Outcome.ret (kern.getsockopt k fd SOL_SOCKET SO_SNDBUF 0 4).2) := by
  refine ⟨?_, ?_, ?_, ?_, ?_⟩
  · refine ⟨_, _, rfl, ?_⟩
    simp
  · unfold SetTcpWindow
    by_cases h1 : (kern.setsockopt k fd SOL_SOCKET SO_SNDBUF size 4).1 = -1
    · refine ⟨false, (kern.setsockopt k fd SOL_SOCKET SO_SNDBUF size 4).2, ?_, ?_, ?_⟩
      · simp [h1]
      · simp [h1]
      · intro _; rfl
    · refine ⟨(kern.setsockopt (kern.setsockopt k fd SOL_SOCKET SO_SNDBUF size 4).2
          fd SOL_SOCKET SO_RCVBUF size 4).1 != -1,
        (kern.setsockopt (kern.setsockopt k fd SOL_SOCKET SO_SNDBUF size 4).2
          fd SOL_SOCKET SO_RCVBUF size 4).2, ?_, ?_, ?_⟩
      · simp [h1]
      · simp [h1]
      · intro h; exact absurd h h1
  · simp [GetTcpNoDelay]
  · simp [GetTcpRcvBuffer]
  · simp [GetTcpSendBuffer]

/-- C7 amended, at a kernel that accepts descriptor 3 only: setting the window
on descriptor 3 returns true and on descriptor 4 false, neither stops. -/
theorem SocketOptions_failure_contract_witness :
    SetTcpWindow bufferKernel 0 3 65536 = Outcome.ret (true, 65536) ∧
    SetTcpWindow bufferKernel 0 4 65536 = Outcome.ret (false, 0) ∧
    GetTcpRcvBuffer bufferKernel 65536 3 = Outcome.ret (65536, 65536) ∧
    GetTcpRcvBuffer bufferKernel 65536 4 = Outcome.invariantHalt := by
  have h4 := SocketOptions_failure_contract bufferKernel 65536 4 65536 true
  exact ⟨by decide, by decide, by decide, h4.2.2.2.1⟩

/-! ## SocketAddress -/

theorem memBytes16_htons (b : Build) (p : Nat) (hp : p ≤ 65535) :
    memBytes16 b (htons b p) = [p / 256, p % 256] := by
  unfold memBytes16 htons
  cases b.littleEndian
  · simp
  · simp only [if_true]
    have h1 : p / 256 < 256 := by omega
    have h2 : (p % 256 * 256 + p / 256) % 256 = p / 256 := by omega
    have h3 : (p % 256 * 256 + p / 256) / 256 = p % 256 := by omega
    rw [h2, h3]

/-- C8, the failing input: for a name the resolver rejects with EAI_NONAME
(-2) and a null result, the invariant `status != -1` holds, so a release
build goes on to read through the null result and a debug build stops on the
assertion; in neither does the call stop on an invariant. -/
theorem GetAddrHost_unresolved_passes_invariant :
    localResolver "no.such.host".toList = (-2, none) ∧
    GetAddrHost releaseBuild localResolver "no.such.host".toList 80
      = Outcome.undefinedBehaviour ∧
    GetAddrHost debugBuild localResolver "no.such.host".toList 80 = Outcome.assertHalt := by
  refine ⟨by decide, by decide, by decide⟩

/-- C10: for every IPv4 address a and port p, GetAddr(a, p) has family AF_INET
(2), s_addr = a, eight zero padding bytes, and sin_port = htons(p): the 16-bit
pattern of p, byte-swapped on a little-endian host, so that its two bytes in
memory are that pattern high byte first (p itself for a port 0..32767, p +
65536 for a negative short); SocketAddress(raddr) has local address
GetAddr(INADDR_ANY, 0), which is all zero but for the family, and remote
address raddr. -/
theorem GetAddrIp_fields (b : Build) (a : Nat) (p : Int) (raddr : sockaddr_in) :
    GetAddrIp b a p =
      { sin_family := 2,
        sin_port := if b.littleEndian
          then (p % 65536).toNat % 256 * 256 + (p % 65536).toNat / 256
          else (p % 65536).toNat,
        s_addr := a, sin_zero := [0, 0, 0, 0, 0, 0, 0, 0] } ∧
    (GetAddrIp b a p).sin_family = AF_INET ∧
    (GetAddrIp b a p).sin_port = htons b (p % 65536).toNat ∧
    memBytes16 b (GetAddrIp b a p).sin_port
      = [(p % 65536).toNat / 256, (p % 65536).toNat % 256] ∧
    (0 ≤ p → p ≤ 32767 →
      memBytes16 b (GetAddrIp b a p).sin_port = [p.toNat / 256, p.toNat % 256]) ∧
    (-32768 ≤ p → p < 0 →
      memBytes16 b (GetAddrIp b a p).sin_port
        = [(p + 65536).toNat / 256, (p + 65536).toNat % 256]) ∧
    (SocketAddress.ofRemote b raddr).LocalAddr
      = { sin_family := 2, sin_port := 0, s_addr := 0, sin_zero := [0, 0, 0, 0, 0, 0, 0, 0] } ∧
    (SocketAddress.ofRemote b raddr).LocalAddr = GetAddrIp b INADDR_ANY 0 ∧
    (SocketAddress.ofRemote b raddr).RemoteAddr = raddr := by
  have hlt := Int.emod_lt_of_pos p (show (0 : Int) < 65536 by norm_num)
  have hnn := Int.emod_nonneg p (show (65536 : Int) ≠ 0 by norm_num)
  have hp : (p % 65536).toNat ≤ 65535 := by omega
  have hport : (GetAddrIp b a p).sin_port = htons b (p % 65536).toNat := rfl
  have hbytes : memBytes16 b (GetAddrIp b a p).sin_port
      = [(p % 65536).toNat / 256, (p % 65536).toNat % 256] := by
    rw [hport]; exact memBytes16_htons b _ hp
  refine ⟨?_, rfl, hport, hbytes, ?_, ?_, ?_, rfl, rfl⟩
  · simp only [GetAddrIp, sockaddr_in.zeroed, AF_INET, htons, toUInt16, List.replicate]
  · intro h0 h1
    rw [hbytes, Int.emod_eq_of_lt h0 (by omega)]
  · intro h0 h1
    have e : p % 65536 = p + 65536 := by
      have h2 : (p + 65536) % 65536 = p + 65536 := Int.emod_eq_of_lt (by omega) (by omega)
      rw [← h2]; simp
    rw [hbytes, e]
  · simp only [SocketAddress.LocalAddr, SocketAddress.ofRemote, GetAddrIp, sockaddr_in.zeroed,
      AF_INET, INADDR_ANY, htons, toUInt16, List.replicate]
    cases b.littleEndian <;> rfl

/-- C10 at the address 127.0.0.1 and the port 8080 (0x1f90) in a release build
on a little-endian host: sin_port holds 0x901f, the bytes 0x1f 0x90 in
memory. -/
theorem GetAddrIp_fields_witness :
    GetAddrIp releaseBuild 16777343 8080
      = { sin_family := 2, sin_port := 36895, s_addr := 16777343,
          sin_zero := [0, 0, 0, 0, 0, 0, 0, 0] } ∧
    memBytes16 releaseBuild (GetAddrIp releaseBuild 16777343 8080).sin_port = [31, 144] :=
  have h := GetAddrIp_fields releaseBuild 16777343 8080 sockaddr_in.zeroed
  ⟨h.1, h.2.2.2.2.1 (by decide) (by decide)⟩

/-! ## The composite record Data -/

theorem RoundTrips.done {γ : Type} (w : γ) :
    RoundTrips (fun b p => Outcome.ret (b, p)) (fun _ p => Outcome.ret (w, p)) w 0 := by
  intro b p _
  exact ⟨b, rfl, rfl, fun _ _ => rfl, fun _ _ _ => rfl⟩

theorem RoundTrips.seq {β γ : Type} {e1 e2 : IOBuffer → Nat → Outcome (IOBuffer × Nat)}
    {d1 : IOBuffer → Nat → Outcome (β × Nat)} {k : β → IOBuffer → Nat → Outcome (γ × Nat)}
    {v1 : β} {w : γ} {n1 n2 : Nat}
    (h1 : RoundTrips e1 d1 v1 n1) (h2 : RoundTrips e2 (k v1) w n2) :
    RoundTrips (fun b p => (e1 b p).bind fun s => e2 s.1 s.2)
      (fun b p => (d1 b p).bind fun r => k r.1 b r.2) w (n1 + n2) := by
  intro b p hlen
  obtain ⟨b1, he1, hl1, hf1, hd1⟩ := h1 b p (by omega)
  obtain ⟨b2, he2, hl2, hf2, hd2⟩ := h2 b1 (p + n1) (by omega)
  refine ⟨b2, ?_, hl2.trans hl1, ?_, ?_⟩
  · simp only [he1, Outcome.bind, he2, Nat.add_assoc]
  · intro i hi
    rw [hf2 i (by omega), hf1 i (by omega)]
  · intro b3 hl3 hag
    have hd1' : d1 b3 p = Outcome.ret (v1, p + n1) := by
      apply hd1 b3 (hl3.trans hl2)
      intro i hlo hhi
      rw [hag i hlo (by omega), hf2 i (by omega)]
    have hd2' : k v1 b3 (p + n1) = Outcome.ret (w, p + n1 + n2) := by
      apply hd2 b3 hl3
      intro i hlo hhi
      exact hag i (by omega) (by omega)
    simp only [hd1', Outcome.bind, hd2', Nat.add_assoc]

theorem Data.roundTrips {R : RpcTypes} (hR : R.Lawful) (d d0 : Data R) :
    RoundTrips d.Encode d0.Decode d d.encodedSize := by
  have h8 := @RoundTrips.seq _ _ _ _ _
    (fun v8 _ p => Outcome.ret (Data.mk d.i16_ d.i32_ d.i64_ d.str_ d.lu32_ d.lu64_ d.lstr_ v8, p))
    _ _ _ _ (hR.hRaw10 d.raw_ d0.raw_) (RoundTrips.done d)
  have h7 := @RoundTrips.seq _ _ _ _ _
    (fun v7 b p => (R.cRaw10.Decode d0.raw_ b p).bind fun r8 =>
      Outcome.ret (Data.mk d.i16_ d.i32_ d.i64_ d.str_ d.lu32_ d.lu64_ v7 r8.1, r8.2))
    _ _ _ _ (hR.hListString d.lstr_ d0.lstr_) h8
  have h6 := @RoundTrips.seq _ _ _ _ _
    (fun v6 b p => (R.cListString.Decode d0.lstr_ b p).bind fun r7 =>
      (R.cRaw10.Decode d0.raw_ b r7.2).bind fun r8 =>
      Outcome.ret (Data.mk d.i16_ d.i32_ d.i64_ d.str_ d.lu32_ v6 r7.1 r8.1, r8.2))
    _ _ _ _ (hR.hListUInt64 d.lu64_ d0.lu64_) h7
  have h5 := @RoundTrips.seq _ _ _ _ _
    (fun v5 b p => (R.cListUInt64.Decode d0.lu64_ b p).bind fun r6 =>
      (R.cListString.Decode d0.lstr_ b r6.2).bind fun r7 =>
      (R.cRaw10.Decode d0.raw_ b r7.2).bind fun r8 =>
      Outcome.ret (Data.mk d.i16_ d.i32_ d.i64_ d.str_ v5 r6.1 r7.1 r8.1, r8.2))
    _ _ _ _ (hR.hListUInt32 d.lu32_ d0.lu32_) h6
  have h4 := @RoundTrips.seq _ _ _ _ _
    (fun v4 b p => (R.cListUInt32.Decode d0.lu32_ b p).bind fun r5 =>
      (R.cListUInt64.Decode d0.lu64_ b r5.2).bind fun r6 =>
      (R.cListString.Decode d0.lstr_ b r6.2).bind fun r7 =>
      (R.cRaw10.Decode d0.raw_ b r7.2).bind fun r8 =>
      Outcome.ret (Data.mk d.i16_ d.i32_ d.i64_ v4 r5.1 r6.1 r7.1 r8.1, r8.2))
    _ _ _ _ (hR.hString d.str_ d0.str_) h5
  have h3 := @RoundTrips.seq _ _ _ _ _
    (fun v3 b p => (R.cString.Decode d0.str_ b p).bind fun r4 =>
      (R.cListUInt32.Decode d0.lu32_ b r4.2).bind fun r5 =>
      (R.cListUInt64.Decode d0.lu64_ b r5.2).bind fun r6 =>
      (R.cListString.Decode d0.lstr_ b r6.2).bind fun r7 =>
      (R.cRaw10.Decode d0.raw_ b r7.2).bind fun r8 =>
      Outcome.ret (Data.mk d.i16_ d.i32_ v3 r4.1 r5.1 r6.1 r7.1 r8.1, r8.2))
    _ _ _ _ (hR.hUInt64 d.i64_ d0.i64_) h4
  have h2 := @RoundTrips.seq _ _ _ _ _
    (fun v2 b p => (R.cUInt64.Decode d0.i64_ b p).bind fun r3 =>
      (R.cString.Decode d0.str_ b r3.2).bind fun r4 =>
      (R.cListUInt32.Decode d0.lu32_ b r4.2).bind fun r5 =>
      (R.cListUInt64.Decode d0.lu64_ b r5.2).bind fun r6 =>
      (R.cListString.Decode d0.lstr_ b r6.2).bind fun r7 =>
      (R.cRaw10.Decode d0.raw_ b r7.2).bind fun r8 =>
      Outcome.ret (Data.mk d.i16_ v2 r3.1 r4.1 r5.1 r6.1 r7.1 r8.1, r8.2))
    _ _ _ _ (hR.hUInt32 d.i32_ d0.i32_) h3
  have h1 := @RoundTrips.seq _ _ _ _ _
    (fun v1 b p => (R.cUInt32.Decode d0.i32_ b p).bind fun r2 =>
      (R.cUInt64.Decode d0.i64_ b r2.2).bind fun r3 =>
      (R.cString.Decode d0.str_ b r3.2).bind fun r4 =>
      (R.cListUInt32.Decode d0.lu32_ b r4.2).bind fun r5 =>
      (R.cListUInt64.Decode d0.lu64_ b r5.2).bind fun r6 =>
      (R.cListString.Decode d0.lstr_ b r6.2).bind fun r7 =>
      (R.cRaw10.Decode d0.raw_ b r7.2).bind fun r8 =>
      Outcome.ret (Data.mk v1 r2.1 r3.1 r4.1 r5.1 r6.1 r7.1 r8.1, r8.2))
    _ _ _ _ (hR.hUInt16 d.i16_ d0.i16_) h2
  have e : R.cUInt16.Size d.i16_ + (R.cUInt32.Size d.i32_ + (R.cUInt64.Size d.i64_
      + (R.cString.Size d.str_ + (R.cListUInt32.Size d.lu32_ + (R.cListUInt64.Size d.lu64_
      + (R.cListString.Size d.lstr_ + (R.cRaw10.Size d.raw_ + 0))))))) = d.encodedSize := by
    unfold Data.encodedSize; omega
  rw [← e]
  exact h1

/-! ### The concrete codecs round-trip -/

theorem RoundTrips.mapDec {β γ : Type} {e : IOBuffer → Nat → Outcome (IOBuffer × Nat)}
    {d : IOBuffer → Nat → Outcome (β × Nat)} {g : β → Nat → Outcome (γ × Nat)}
    {v : β} {w : γ} {n : Nat}
    (h : RoundTrips e d v n) (hg : ∀ p, g v p = Outcome.ret (w, p)) :
    RoundTrips e (fun b p => (d b p).bind fun r => g r.1 r.2) w n := by
  intro b p hlen
  obtain ⟨b1, he, hl, hf, hd⟩ := h b p hlen
  refine ⟨b1, he, hl, hf, ?_⟩
  intro b2 hl2 hag
  simp only [hd b2 hl2 hag, Outcome.bind, hg]

theorem writeBytes_readBytes (bs : List (Fin 256)) :
    RoundTrips (writeBytes bs) (readBytes bs.length) bs bs.length := by
  intro b p hlen
  have hlb : (b.take p ++ bs ++ b.drop (p + bs.length)).length = b.length := by
    simp only [List.length_append, List.length_take, List.length_drop]; omega
  refine ⟨b.take p ++ bs ++ b.drop (p + bs.length), ?_, hlb, ?_, ?_⟩
  · simp [writeBytes, hlen]
  · intro i hi
    rcases hi with hi | hi
    · rw [List.append_assoc, List.getElem?_append_left (by simp only [List.length_take]; omega),
        List.getElem?_take_of_lt hi]
    · rw [List.getElem?_append_right
        (by simp only [List.length_append, List.length_take]; omega), List.getElem?_drop]
      simp only [List.length_append, List.length_take]
      congr 1; omega
  · intro b2 hl2 hag
    have hl2' : p + bs.length ≤ b2.length := by omega
    simp only [readBytes, hl2', if_true]
    congr 2
    apply List.ext_getElem?
    intro i
    rw [List.getElem?_take]
    split_ifs with hi
    · rw [List.getElem?_drop, hag (p + i) (by omega) (by omega), List.append_assoc,
        List.getElem?_append_right (by simp only [List.length_take]; omega),
        List.getElem?_append_left (by simp only [List.length_take]; omega)]
      simp only [List.length_take]
      congr 1; omega
    · rw [List.getElem?_eq_none (by omega)]

theorem leBytes_length (n x : Nat) : (leBytes n x).length = n := by
  induction n generalizing x with
  | zero => rfl
  | succ n ih => simp [leBytes, ih]

theorem ofLeBytes_leBytes (n x : Nat) (h : x < 256 ^ n) : ofLeBytes (leBytes n x) = x := by
  induction n generalizing x with
  | zero => simp at h; simp [leBytes, ofLeBytes, h]
  | succ n ih =>
    have h2 : x / 256 < 256 ^ n := by
      rw [Nat.div_lt_iff_lt_mul (by decide)]; rw [pow_succ] at h; exact h
    simp only [leBytes, ofLeBytes, ih _ h2]
    omega

theorem uintCodec_lawful (n : Nat) : (uintCodec n).Lawful := by
  intro v old
  have h := writeBytes_readBytes (leBytes n v.val)
  rw [leBytes_length] at h
  exact RoundTrips.mapDec
    (g := fun bs p => if h : ofLeBytes bs < 256 ^ n then
      Outcome.ret ((⟨ofLeBytes bs, h⟩ : Fin (256 ^ n)), p) else Outcome.invariantHalt)
    h (fun p => by simp [ofLeBytes_leBytes n v.val v.isLt])

theorem rawCodec_lawful (n : Nat) : (rawCodec n).Lawful := by
  intro v old
  have h := writeBytes_readBytes v.val
  rw [v.property] at h
  exact RoundTrips.mapDec
    (g := fun bs p => if h : bs.length = n then Outcome.ret ((⟨bs, h⟩ : Bytes n), p)
      else Outcome.invariantHalt)
    (w := v) h (fun p => by simp [v.property])

theorem encodeAll_decodeN {α : Type} (c : FieldCodec α) (hc : c.Lawful) (fresh : α)
    (xs : List α) :
    RoundTrips (encodeAll c xs) (decodeN c fresh xs.length) xs (xs.map c.Size).sum := by
  induction xs with
  | nil => exact RoundTrips.done []
  | cons x xs ih =>
    have h2 := RoundTrips.mapDec (g := fun rs p => Outcome.ret (x :: rs, p)) ih (fun _ => rfl)
    exact @RoundTrips.seq _ _ _ _ _
      (fun y b p => (decodeN c fresh xs.length b p).bind fun rs => Outcome.ret (y :: rs.1, rs.2))
      _ _ _ _ (hc x fresh) h2

theorem listCodec_lawful {α : Type} (c : FieldCodec α) (hc : c.Lawful) (fresh : α) :
    (listCodec c fresh).Lawful := by
  intro v old
  have h1 := writeBytes_readBytes (leBytes 4 v.val.length)
  rw [leBytes_length] at h1
  have h2 := RoundTrips.mapDec
    (g := fun rs p => if h : rs.length < 256 ^ 4 then Outcome.ret ((⟨rs, h⟩ : CountedList α), p)
      else Outcome.invariantHalt)
    (encodeAll_decodeN c hc fresh v.val) (w := v)
    (fun p => by have hv : v.val.length < 4294967296 := v.property
                 simp [hv])
  have h3 := @RoundTrips.seq _ _ _ _ _
    (fun bs b p => (decodeN c fresh (ofLeBytes bs) b p).bind fun rs =>
      if h : rs.1.length < 256 ^ 4 then Outcome.ret ((⟨rs.1, h⟩ : CountedList α), rs.2)
      else Outcome.invariantHalt)
    _ _ _ _ h1 (by simp only [ofLeBytes_leBytes 4 v.val.length v.property]; exact h2)
  exact h3

theorem testTypes_lawful : testTypes.Lawful where
  hUInt16 := uintCodec_lawful 2
  hUInt32 := uintCodec_lawful 4
  hUInt64 := uintCodec_lawful 8
  hString := listCodec_lawful _ (uintCodec_lawful 1) _
  hListUInt32 := listCodec_lawful _ (uintCodec_lawful 4) _
  hListUInt64 := listCodec_lawful _ (uintCodec_lawful 8) _
  hListString := listCodec_lawful _ (listCodec_lawful _ (uintCodec_lawful 1) _) _
  hRaw10 := rawCodec_lawful 10

/-- C2: when each of the eight field codecs round-trips (in a buffer with room
it encodes in Size() bytes without touching other bytes, and decoding those
bytes gives the value back and moves the position as far), then for every
record d and every buffer that can hold the encoding, Data::Encode from
position 0 returns, and Data::Decode from position 0 on the resulting buffer,
into any record, returns a record equal to d and ends where Encode ended. -/
theorem Data_Encode_Decode_roundtrip (R : RpcTypes) (hR : R.Lawful) (d d0 : Data R)
    (buf : IOBuffer) (hbuf : d.encodedSize ≤ buf.length) :
    ∃ (buf1 : IOBuffer) (pos1 : Nat), d.Encode buf 0 = Outcome.ret (buf1, pos1) ∧
      d0.Decode buf1 0 = Outcome.ret (d, pos1) := by
  obtain ⟨b1, he, _, _, hd⟩ := Data.roundTrips hR d d0 buf 0 (by omega)
  exact ⟨b1, 0 + d.encodedSize, he, hd b1 rfl (fun _ _ _ => rfl)⟩

/-- C2 at the record of test_datatypes and a zeroed buffer of 95 bytes, the
length of its encoding: decoding into the empty record gives the record
back. -/
theorem Data_Encode_Decode_roundtrip_witness :
    ∃ (buf1 : IOBuffer) (pos1 : Nat),
      testData.Encode (List.replicate 95 0) 0 = Outcome.ret (buf1, pos1) ∧
      freshData.Decode buf1 0 = Outcome.ret (testData, pos1) :=
  Data_Encode_Decode_roundtrip testTypes testTypes_lawful testData freshData
    (List.replicate 95 0) (by decide)

/-- C3: Data::Size() is the sum of the three sizeof constants and the Size()
of str_, lu32_, lu64_ and lstr_, in size_t arithmetic; raw_ does not enter it,
so records that agree on the first seven fields have the same Size(), and
Size() plus raw_.Size() is the sum over all eight fields (exactly when that
sum fits in a size_t, modulo 2^64 otherwise). -/
theorem Data_Size_discards_raw (R : RpcTypes) (d : Data R) :
    d.Size = (R.sizeofUInt16 + R.sizeofUInt32 + R.sizeofUInt64 + R.cString.Size d.str_
      + R.cListUInt32.Size d.lu32_ + R.cListUInt64.Size d.lu64_
      + R.cListString.Size d.lstr_) % 2 ^ 64 ∧
    (∀ raw : R.Raw10, ({ d with raw_ := raw } : Data R).Size = d.Size) ∧
    (d.Size + R.cRaw10.Size d.raw_) % 2 ^ 64 = d.sumAllFields % 2 ^ 64 ∧
    (d.sumAllFields < 2 ^ 64 → d.Size + R.cRaw10.Size d.raw_ = d.sumAllFields) := by
  refine ⟨rfl, fun _ => rfl, ?_, ?_⟩
  · simp only [Data.Size, Data.sumAllFields, UINT64_MOD]
    omega
  · intro h
    simp only [Data.Size, Data.sumAllFields, UINT64_MOD] at h ⊢
    omega

/-- C3 at the record of test_datatypes: Size() is 85 and the eight fields sum
to 95, the difference being the 10 bytes of raw_. -/
theorem Data_Size_discards_raw_witness :
    testData.Size = 85 ∧ testData.sumAllFields = 95 ∧
    testData.Size + testTypes.cRaw10.Size testData.raw_ = testData.sumAllFields :=
  ⟨by decide, by decide, (Data_Size_discards_raw testTypes testData).2.2.2 (by decide)⟩

/-! ## The scheduler scenario of test_handler -/

theorem eraseIdx_facts {α : Type} (f : α → Nat) (q : List α) (i : Nat) (c : α)
    (h : q[i]? = some c) :
    (q.eraseIdx i).length + 1 = q.length ∧
    ((q.eraseIdx i).map f).sum + f c = (q.map f).sum ∧
    (∀ x ∈ q.eraseIdx i, x ∈ q) ∧ c ∈ q := by
  induction q generalizing i with
  | nil => simp at h
  | cons a q ih =>
    cases i with
    | zero =>
      simp only [List.getElem?_cons_zero, Option.some.injEq] at h
      subst h
      simp only [List.eraseIdx, List.length_cons, List.map_cons, List.sum_cons, List.mem_cons,
        true_or, and_true, true_and]
      exact ⟨Nat.add_comm _ _, fun x hx => Or.inr hx⟩
    | succ i =>
      simp only [List.getElem?_cons_succ] at h
      obtain ⟨h1, h2, h3, h4⟩ := ih i h
      refine ⟨by simp [List.eraseIdx, h1], ?_, ?_, List.mem_cons_of_mem _ h4⟩
      · simp only [List.eraseIdx, List.map_cons, List.sum_cons]; omega
      · intro x hx
        simp only [List.eraseIdx, List.mem_cons] at hx
        rcases hx with rfl | hx
        · simp
        · exact List.mem_cons_of_mem _ (h3 x hx)

theorem initialWorld_inv : initialWorld.Inv := by
  refine ⟨rfl, by simp [initialWorld], 0, rfl, rfl, rfl, rfl⟩

theorem step_inv (b : Build) (w w1 : World) (s : Step) (hinv : w.Inv)
    (hstep : step b w s = some w1) : w1.Inv ∧ pendingSteps w1 + 1 = pendingSteps w := by
  obtain ⟨hh, hq, n, hc, hsum, hhd, hwk⟩ := hinv
  cases s with
  | mainLoop =>
    simp only [step, hh, Bool.false_eq_true, if_false] at hstep
    split_ifs at hstep with h0
    simp only [Option.some.injEq] at hstep
    subst hstep
    refine ⟨⟨rfl, ?_, n, hc, ?_, hhd, hwk⟩, ?_⟩
    · intro c hcm
      simp only [Schedule, List.mem_append, List.mem_singleton] at hcm
      rcases hcm with hcm | hcm
      · exact hq c hcm
      · exact Or.inl hcm
    · simp only [Schedule, List.length_append, List.length_singleton]; omega
    · simp only [pendingSteps, Schedule, List.map_append, List.sum_append, List.map_cons,
        List.map_nil, List.sum_cons, List.sum_nil, Call.weight]
      omega
  | worker pick =>
    simp only [step, hh, Bool.false_eq_true, if_false] at hstep
    cases hget : w.queue[pick]? with
    | none => simp [hget] at hstep
    | some c =>
      simp only [hget, Option.some.injEq] at hstep
      obtain ⟨hl, hw, hmem, hcq⟩ := eraseIdx_facts Call.weight w.queue pick c hget
      have hq1 : ∀ x ∈ w.queue.eraseIdx pick,
          x = Call.callerStart testCaller 0xfeaf ∨ x = Call.calleeHandle 0xfeaf :=
        fun x hx => hq x (hmem x hx)
      subst hstep
      rcases hq c hcq with rfl | rfl
      · refine ⟨⟨rfl, ?_, n, hc, ?_, hhd, hwk⟩, ?_⟩
        · intro x hx
          simp only [Call.exec, Caller.Start, testCaller, Schedule, List.mem_append,
            List.mem_singleton] at hx
          rcases hx with hx | hx
          · exact hq1 x hx
          · exact Or.inr hx
        · simp only [Call.exec, Caller.Start, testCaller, Schedule, List.length_append,
            List.length_singleton]
          omega
        · simp only [pendingSteps, Call.exec, Caller.Start, testCaller, Schedule,
            List.map_append, List.sum_append, List.map_cons, List.map_nil, List.sum_cons,
            List.sum_nil, Call.weight] at hw ⊢
          omega
      · have hn : n < 1000 := by omega
        have hcnt : toInt32 (w.count_ + 1) = ((n + 1 : Nat) : Int) := by
          rw [hc]; unfold toInt32
          have e : ((n : Int) + 1) % 4294967296 = (n : Int) + 1 :=
            Int.emod_eq_of_lt (by omega) (by omega)
          simp only [e]
          rw [if_pos (by omega)]
          push_cast; rfl
        have hval : (b.debug && ((0xfeaf : Int) != 0xfeaf)) = false := by simp
        simp only [Call.exec, Callee.Handle, hval, Bool.false_eq_true, if_false, hcnt]
        have hwk0 : w.wakeups = [] := by rw [hwk, if_neg (by omega)]
        have hhd1 : w.handled ++ [((0xfeaf : Int), ((n + 1 : Nat) : Int))]
            = (List.range (n + 1)).map (fun (i : Nat) => ((0xfeaf : Int), (i : Int) + 1)) := by
          rw [List.range_succ, List.map_append, hhd]; simp
        by_cases hlast : n + 1 = 1000
        · have hl1 : (((n + 1 : Nat) : Int) == MAX_CALLS) = true := by
            simp only [MAX_CALLS, beq_iff_eq]; omega
          simp only [hl1, if_true, Wakeup]
          refine ⟨⟨rfl, hq1, n + 1, rfl, by simp only; omega, hhd1, ?_⟩, ?_⟩
          · simp only [hwk0, hlast, if_true, List.nil_append]
            rfl
          · simp only [pendingSteps, Call.weight] at hw ⊢
            omega
        · have hl1 : (((n + 1 : Nat) : Int) == MAX_CALLS) = false := by
            simp only [MAX_CALLS, beq_eq_false_iff_ne, ne_eq]; omega
          simp only [hl1, Bool.false_eq_true, if_false]
          refine ⟨⟨rfl, hq1, n + 1, rfl, by simp only; omega, hhd1, ?_⟩, ?_⟩
          · simp only [hwk0, hlast, if_false]
          · simp only [pendingSteps, Call.weight] at hw ⊢
            omega

theorem run_inv (b : Build) (sched : List Step) (w w1 : World) (hinv : w.Inv)
    (hrun : run b sched w = some w1) :
    w1.Inv ∧ sched.length + pendingSteps w1 = pendingSteps w := by
  induction sched generalizing w with
  | nil =>
    simp only [run, Option.some.injEq] at hrun
    subst hrun
    exact ⟨hinv, by simp⟩
  | cons s rest ih =>
    simp only [run] at hrun
    cases hs : step b w s with
    | none => simp [hs] at hrun
    | some w2 =>
      simp only [hs] at hrun
      obtain ⟨hinv2, hm⟩ := step_inv b w w2 s hinv hs
      obtain ⟨hinv1, hm1⟩ := ih w2 hinv2 hrun
      exact ⟨hinv1, by simp only [List.length_cons]; omega⟩

theorem run_append (b : Build) (s1 s2 : List Step) (w : World) :
    run b (s1 ++ s2) w = (run b s1 w).bind (run b s2) := by
  induction s1 generalizing w with
  | nil => rfl
  | cons s rest ih =>
    simp only [List.cons_append, run]
    cases step b w s with
    | none => rfl
    | some w2 => exact ih w2

theorem step_progress (b : Build) (w : World) (hinv : w.Inv) (hq : ¬ w.quiescent) :
    ∃ s w1, step b w s = some w1 := by
  obtain ⟨hh, _, _⟩ := hinv
  by_cases h0 : w.toSchedule = 0
  · have hne : w.queue ≠ [] := fun h => hq ⟨h0, h⟩
    cases hqe : w.queue with
    | nil => exact absurd hqe hne
    | cons c cs =>
      exact ⟨Step.worker 0, c.exec b { w with queue := w.queue.eraseIdx 0 },
        by simp [step, hh, hqe]⟩
  · exact ⟨Step.mainLoop, _, by simp only [step, hh, h0]; rfl⟩

theorem run_completes (b : Build) (k : Nat) (w : World) (hinv : w.Inv)
    (hk : pendingSteps w = k) : ∃ rest wf, run b rest w = some wf ∧ wf.quiescent := by
  induction k generalizing w with
  | zero =>
    refine ⟨[], w, rfl, ?_⟩
    obtain ⟨_, hq, _⟩ := hinv
    simp only [pendingSteps] at hk
    have h0 : w.toSchedule = 0 := by omega
    refine ⟨h0, ?_⟩
    cases hqe : w.queue with
    | nil => rfl
    | cons c cs =>
      have hc := hq c (by simp [hqe])
      rw [hqe] at hk
      rcases hc with rfl | rfl <;> simp [Call.weight] at hk
  | succ k ih =>
    have hnq : ¬ w.quiescent := by
      rintro ⟨h0, hq⟩
      simp [pendingSteps, h0, hq] at hk
    obtain ⟨s, w1, hs⟩ := step_progress b w hinv hnq
    obtain ⟨hinv1, hm⟩ := step_inv b w w1 s hinv hs
    obtain ⟨rest, wf, hr, hqf⟩ := ih w1 hinv1 (by omega)
    exact ⟨s :: rest, wf, by simp only [run, hs, hr], hqf⟩

/-- C4: in the scenario of test_handler, for every order in which the main
loop and the workers take their steps (each enqueued call run once), every
state reached has these properties: no assertion stopped the process; the
steps taken and the steps still pending add up to 3000, so all work has run
after exactly 3000 steps; every Handle received 0xfeaf; Wakeup was not called
while count_ is below 1000; when all work has run count_ is 1000, Handle was
invoked 1000 times with 0xfeaf, and Wakeup was called once, by the invocation
that made count_ 1000; from every state the run can be continued until all
work has run; and Caller::Start enqueues one Handle with the value it got. -/
theorem test_handler_scenario (b : Build) (sched : List Step) (w : World)
    (hrun : run b sched initialWorld = some w) :
    w.halted = false ∧
    sched.length + pendingSteps w = 3000 ∧
    (∀ val n, (val, n) ∈ w.handled → val = 0xfeaf) ∧
    (w.count_ < MAX_CALLS → w.wakeups = []) ∧
    (w.quiescent → w.count_ = MAX_CALLS ∧
      w.handled = (List.range 1000).map (fun (i : Nat) => ((0xfeaf : Int), (i : Int) + 1)) ∧
      w.wakeups = [MAX_CALLS]) ∧
    (∃ rest wf, run b (sched ++ rest) initialWorld = some wf ∧ wf.quiescent) ∧
    (∀ val w0, (testCaller.Start val w0).queue = w0.queue ++ [Call.calleeHandle val]) := by
  obtain ⟨hinv, hm⟩ := run_inv b sched initialWorld w initialWorld_inv hrun
  obtain ⟨rest, wf, hr, hqf⟩ := run_completes b _ w hinv rfl
  obtain ⟨hh, hq, n, hc, hsum, hhd, hwk⟩ := hinv
  refine ⟨hh, hm, ?_, ?_, ?_, ⟨rest, wf, ?_, hqf⟩, fun _ _ => rfl⟩
  · intro val k hmem
    rw [hhd] at hmem
    simp only [List.mem_map, Prod.mk.injEq] at hmem
    obtain ⟨_, _, h1, _⟩ := hmem
    exact h1.symm
  · intro hlt
    rw [hwk, if_neg]
    simp only [MAX_CALLS, hc] at hlt
    omega
  · rintro ⟨h0, hqe⟩
    have hn : n = 1000 := by simp only [h0, hqe, List.length_nil] at hsum; omega
    subst hn
    exact ⟨hc, hhd, by rw [hwk]; rfl⟩
  · rw [run_append, hrun]; exact hr

/-- C4 at a run in which the loop has made three iterations and a worker has
run the first Caller::Start and the Handle it scheduled: count_ is 1, no
Wakeup yet, 2995 steps pending. -/
theorem test_handler_scenario_witness :
    run releaseBuild sampleSchedule initialWorld = some sampleWorld ∧
    5 + pendingSteps sampleWorld = 3000 ∧ sampleWorld.wakeups = [] :=
  have hrun : run releaseBuild sampleSchedule initialWorld = some sampleWorld := by decide
  ⟨hrun, (test_handler_scenario releaseBuild sampleSchedule sampleWorld hrun).2.1,
    (test_handler_scenario releaseBuild sampleSchedule sampleWorld hrun).2.2.2.1 (by decide)⟩

/-! ## Thread::ThFn -/

/-- C6: for every non-null Thread th, ThFn returns the value ThreadMain
returned; what it adds to the events of the thread is ThreadCtx::Init(th),
then the events of ThreadMain, which finds the context initialised for th,
then ThreadCtx::Cleanup(), and nothing else, so Init and Cleanup each occur
exactly once; the context is torn down at the end. A null argument stops the
process on the invariant. -/
theorem ThFn_init_main_cleanup (th : Thread) (w : ThreadLocal) :
    Thread.ThFn (some th) w = Outcome.ret ((th.body (some th.addr)).2,
      { ctx := none,
        trace := w.trace ++ ([ThreadEvent.ctxInit th.addr]
          ++ (th.body (some th.addr)).1.map (ThreadEvent.mainEvent th.addr)
          ++ [ThreadEvent.ctxCleanup]) }) ∧
    List.countP ThreadEvent.isInit ([ThreadEvent.ctxInit th.addr]
          ++ (th.body (some th.addr)).1.map (ThreadEvent.mainEvent th.addr)
          ++ [ThreadEvent.ctxCleanup]) = 1 ∧
    List.countP ThreadEvent.isCleanup ([ThreadEvent.ctxInit th.addr]
          ++ (th.body (some th.addr)).1.map (ThreadEvent.mainEvent th.addr)
          ++ [ThreadEvent.ctxCleanup]) = 1 ∧
    Thread.ThFn none w = Outcome.invariantHalt := by
  have h0 : ∀ l : List Nat, List.countP ThreadEvent.isInit
      (l.map (ThreadEvent.mainEvent th.addr)) = 0 := by
    intro l; induction l with
    | nil => rfl
    | cons a l ih => simp [List.countP_cons, ih, ThreadEvent.isInit]
  have h1 : ∀ l : List Nat, List.countP ThreadEvent.isCleanup
      (l.map (ThreadEvent.mainEvent th.addr)) = 0 := by
    intro l; induction l with
    | nil => rfl
    | cons a l ih => simp [List.countP_cons, ih, ThreadEvent.isCleanup]
  refine ⟨?_, ?_, ?_, rfl⟩
  · simp [Thread.ThFn, ThreadCtx.Init, ThreadCtx.Cleanup, Thread.ThreadMain]
  · rw [List.countP_append, List.countP_append, h0]
    simp [ThreadEvent.isInit]
  · rw [List.countP_append, List.countP_append, h1]
    simp [ThreadEvent.isCleanup]

/-! ## Adler32 -/

theorem adlerSums_fst (bytes : List (Fin 256)) (s1 s2 : Nat) :
    (adlerSums s1 s2 bytes).1 = s1 + (bytes.map Fin.val).sum := by
  induction bytes generalizing s1 s2 with
  | nil => simp [adlerSums]
  | cons b bs ih =>
    have h := ih (s1 + b.val) (s2 + (s1 + b.val))
    simp only [adlerSums, List.foldl_cons, List.map_cons, List.sum_cons] at h ⊢
    rw [h]; omega

/-- C11, the failing inputs: with the seed 0 that Calc passes to zlib, the
empty sequence (a non-null pointer, size 0) gives 0 where the Adler-32
checksum is 1, and the one byte 0x61 gives 0x00610061 where the Adler-32
checksum is 0x00620062; only a null pointer gives 1. -/
theorem Adler32_Calc_seeded_with_zero :
    Adler32.Calc (some []) 0 = Outcome.ret 0 ∧ adler32Defined [] = 1 ∧
    Adler32.Calc (some [⟨0x61, by decide⟩]) 1 = Outcome.ret 6357089 ∧
    adler32Defined [⟨0x61, by decide⟩] = 6422626 ∧
    Adler32.Calc none 0 = Outcome.ret 1 := by
  refine ⟨by decide, by decide, by decide, by decide, by decide⟩

theorem Adler32_Calc_low_half (bytes : List (Fin 256)) :
    ∃ r, Adler32.Calc (some bytes) bytes.length = Outcome.ret r ∧
      r % 65536 = ((bytes.map Fin.val).sum) % 65521 := by
  refine ⟨((adlerSums 0 0 bytes).1 % ADLER_BASE
    + ((adlerSums 0 0 bytes).2 % ADLER_BASE) * 65536) % 4294967296, ?_, ?_⟩
  · simp only [Adler32.Calc, adler32, lt_irrefl, if_false, List.take_length, Outcome.bind]
  · simp only [adlerSums_fst, ADLER_BASE]
    omega

theorem adler32Defined_low_half (bytes : List (Fin 256)) :
    adler32Defined bytes % 65536 = (1 + (bytes.map Fin.val).sum) % 65521 := by
  simp only [adler32Defined, List.take_length]
  omega

/-- For no byte sequence at all does Calc return its Adler-32 checksum: the low
halves are the byte sum and the byte sum plus one, modulo 65521. -/
theorem Adler32_Calc_ne_defined (bytes : List (Fin 256)) :
    Adler32.Calc (some bytes) bytes.length ≠ Outcome.ret (adler32Defined bytes) := by
  obtain ⟨r, hr, hlow⟩ := Adler32_Calc_low_half bytes
  rw [hr]
  intro h
  have e : r = adler32Defined bytes := by injection h
  have h2 := adler32Defined_low_half bytes
  rw [← e] at h2
  omega

theorem adlerSums_snd (bytes : List (Fin 256)) (s1 s2 : Nat) :
    (adlerSums s1 s2 bytes).2 = s2 + ((List.range bytes.length).map
      (fun k => s1 + ((bytes.take (k + 1)).map Fin.val).sum)).sum := by
  induction bytes generalizing s1 s2 with
  | nil => simp [adlerSums]
  | cons b bs ih =>
    have h := ih (s1 + b.val) (s2 + (s1 + b.val))
    simp only [adlerSums, List.foldl_cons] at h ⊢
    rw [h, List.length_cons, List.range_succ_eq_map]
    simp only [List.map_cons, List.sum_cons, List.map_map, List.take_succ_cons, List.take_zero,
      List.map_nil, List.sum_nil, Function.comp_def, Nat.succ_eq_add_one, Nat.add_assoc,
      Nat.zero_add]

/-- The model of zlib is the Adler-32 checksum when it is seeded as zlib asks,
with the initial value 1: the difference in Calc is the seed alone. -/
theorem adler32_seed_one (bytes : List (Fin 256)) :
    adler32 1 (some bytes) bytes.length = Outcome.ret (adler32Defined bytes) := by
  simp only [adler32, lt_irrefl, if_false, List.take_length, adlerSums_fst, adlerSums_snd,
    adler32Defined, ADLER_BASE]
  congr 1
  have hB : (((List.range bytes.length).map
      (fun k => (1 + ((bytes.take (k + 1)).map Fin.val).sum) % 65521)).sum) % 65521
      = (((List.range bytes.length).map
      (fun k => 1 + ((bytes.take (k + 1)).map Fin.val).sum)).sum) % 65521 := by
    rw [List.sum_nat_mod ((List.range bytes.length).map
      (fun k => 1 + ((bytes.take (k + 1)).map Fin.val).sum))]
    simp only [List.map_map, Function.comp_def]
  rw [hB]
  norm_num
  omega

/-! ## Math::Roundup -/

theorem Roundup_value (n s : Nat) (hs : 0 < s) :
    (n / s + (if n % s ≠ 0 then 1 else 0)) * s % s = 0 ∧
    n ≤ (n / s + (if n % s ≠ 0 then 1 else 0)) * s ∧
    (n / s + (if n % s ≠ 0 then 1 else 0)) * s < n + s ∧
    ∀ m, m % s = 0 → n ≤ m → (n / s + (if n % s ≠ 0 then 1 else 0)) * s ≤ m := by
  have hdm : s * (n / s) + n % s = n := Nat.div_add_mod n s
  have hlt : n % s < s := Nat.mod_lt n hs
  have hcomm : n / s * s = s * (n / s) := Nat.mul_comm _ _
  refine ⟨Nat.mul_mod_left _ _, ?_, ?_, ?_⟩
  · split_ifs with h
    · rw [Nat.add_mul]; omega
    · rw [Nat.add_zero]; omega
  · split_ifs with h
    · rw [Nat.add_mul]; omega
    · rw [Nat.add_zero]; omega
  · intro m hm hnm
    obtain ⟨j, hj⟩ := Nat.dvd_of_mod_eq_zero hm
    subst hj
    rw [Nat.mul_comm _ s]
    apply Nat.mul_le_mul_left
    split_ifs with h
    · have hlt2 : s * (n / s) < s * j := by omega
      have := Nat.lt_of_mul_lt_mul_left hlt2
      omega
    · have hle : s * (n / s) ≤ s * j := by omega
      have := Nat.le_of_mul_le_mul_left hle hs
      omega

/-- C12: for every n and every s > 0 such that a multiple of s that is at
least n fits in a size_t, Roundup(n, s) returns the least multiple of s that is
at least n: the result r has r mod s = 0, n <= r < n + s, no smaller multiple
of s is at least n, and Roundup(r, s) = r; for s = 0 the call stops on its
invariant. -/
theorem Roundup_least_multiple (n s : Nat) (hs : 0 < s)
    (hfit : ∃ m, m % s = 0 ∧ n ≤ m ∧ m < 2 ^ 64) :
    (∃ r, Math.Roundup n s = Outcome.ret r ∧ r % s = 0 ∧ n ≤ r ∧ r < n + s ∧
      (∀ m, m % s = 0 → n ≤ m → r ≤ m) ∧ Math.Roundup r s = Outcome.ret r) ∧
    Math.Roundup n 0 = Outcome.invariantHalt := by
  obtain ⟨h1, h2, h3, h4⟩ := Roundup_value n s hs
  obtain ⟨m, hm, hnm, hmlt⟩ := hfit
  have hr : (n / s + (if n % s ≠ 0 then 1 else 0)) * s < 2 ^ 64 :=
    lt_of_le_of_lt (h4 m hm hnm) hmlt
  have hq : n / s + (if n % s ≠ 0 then 1 else 0) < 2 ^ 64 :=
    lt_of_le_of_lt (Nat.le_mul_of_pos_right _ hs) hr
  have hval : Math.Roundup n s
      = Outcome.ret ((n / s + (if n % s ≠ 0 then 1 else 0)) * s) := by
    simp only [Math.Roundup, UINT64_MOD, Nat.pos_iff_ne_zero.mp hs, if_false]
    rw [Nat.mod_eq_of_lt hq, Nat.mod_eq_of_lt hr]
  refine ⟨⟨_, hval, h1, h2, h3, h4, ?_⟩, by simp [Math.Roundup]⟩
  simp only [Math.Roundup, UINT64_MOD, Nat.pos_iff_ne_zero.mp hs, if_false, h1, ne_eq,
    not_true_eq_false, Nat.add_zero]
  have hdiv : (n / s + (if n % s ≠ 0 then 1 else 0)) * s / s
      = n / s + (if n % s ≠ 0 then 1 else 0) := Nat.mul_div_cancel _ hs
  rw [hdiv, Nat.mod_eq_of_lt hq, Nat.mod_eq_of_lt hr]

/-- C12 at n = 1000 and s = 512: the result is 1024; and at a multiple,
Roundup(1024, 512) = 1024. -/
theorem Roundup_least_multiple_witness :
    ∃ r, Math.Roundup 1000 512 = Outcome.ret r ∧ r % 512 = 0 ∧ 1000 ≤ r ∧ r < 1000 + 512 ∧
      (∀ m, m % 512 = 0 → 1000 ≤ m → r ≤ m) ∧ Math.Roundup r 512 = Outcome.ret r :=
  (Roundup_least_multiple 1000 512 (by decide) ⟨1024, by decide, by decide, by decide⟩).1

/-! ## StateMachine -/

/-- C13: for every state s, target t and non-zero mask from, in every build,
MoveTo(t, from) returns true and leaves the state t exactly when s & from is
non-zero, and otherwise returns false and leaves the state s. Is(mask) returns
true exactly when state & mask is non-zero and whenever it returns the state
is unchanged; it returns for every non-zero mask, and for every mask in a
build without assertions. -/
theorem StateMachine_MoveTo_Is (b : Build) (s t frm mask : Nat) (hfrm : frm ≠ 0) :
    (StateMachine.MoveTo b { state_ := s } t frm = Outcome.ret (true, { state_ := t })
      ↔ s &&& frm ≠ 0) ∧
    (s &&& frm = 0 →
      StateMachine.MoveTo b { state_ := s } t frm = Outcome.ret (false, { state_ := s })) ∧
    (StateMachine.Is b { state_ := s } mask = Outcome.ret (true, { state_ := s })
      ↔ s &&& mask ≠ 0) ∧
    (∀ r sm, StateMachine.Is b { state_ := s } mask = Outcome.ret (r, sm)
      → sm = { state_ := s }) ∧
    (mask ≠ 0 ∨ b.debug = false →
      StateMachine.Is b { state_ := s } mask
        = Outcome.ret (decide (s &&& mask ≠ 0), { state_ := s })) := by
  have hg : (b.debug && frm == 0) = false := by simp [hfrm]
  refine ⟨?_, ?_, ?_, ?_, ?_⟩
  · simp only [StateMachine.MoveTo, hg, Bool.false_eq_true, if_false]
    by_cases h : s &&& frm = 0
    · simp [h]
    · simp [h]
  · intro h
    simp [StateMachine.MoveTo, hg, h]
  · unfold StateMachine.Is
    by_cases hm : mask = 0
    · subst hm
      cases hd : b.debug <;> simp
    · have hgm : (b.debug && mask == 0) = false := by simp [hm]
      simp [hgm]
  · intro r sm h
    unfold StateMachine.Is at h
    split_ifs at h
    simp only [Outcome.ret.injEq, Prod.mk.injEq] at h
    exact h.2.symm
  · intro h
    have hgm : (b.debug && mask == 0) = false := by
      rcases h with h | h
      · simp [h]
      · simp [h]
    simp only [StateMachine.Is, hgm, Bool.false_eq_true, if_false]
    by_cases hz : s &&& mask = 0 <;> simp [hz]

/-- C13 in a debug build at state 2: MoveTo(4, 3) moves to 4, and Is(2)
holds. -/
theorem StateMachine_MoveTo_Is_witness :
    StateMachine.MoveTo debugBuild { state_ := 2 } 4 3 = Outcome.ret (true, { state_ := 4 }) ∧
    StateMachine.Is debugBuild { state_ := 2 } 2 = Outcome.ret (true, { state_ := 2 }) :=
  have h := StateMachine_MoveTo_Is debugBuild 2 4 3 2 (by decide)
  ⟨h.1.mpr (by decide), h.2.2.1.mpr (by decide)⟩

/-! ## BoundedQ -/

theorem pushAll_q_ {α : Type} (q : BoundedQ α) (xs : List α) :
    (q.pushAll xs).q_ = q.q_ ++ xs := by
  induction xs generalizing q with
  | nil => simp [BoundedQ.pushAll]
  | cons x xs ih =>
    have h := ih (q.Push x)
    simp only [BoundedQ.pushAll, List.foldl_cons] at h ⊢
    rw [h]
    simp [BoundedQ.Push]

theorem popN_take_drop {α : Type} (k : Nat) (l : List α) (hk : k ≤ l.length) :
    BoundedQ.popN k { q_ := l } = Outcome.ret (l.take k, { q_ := l.drop k }) := by
  induction k generalizing l with
  | zero => simp [BoundedQ.popN]
  | succ k ih =>
    cases l with
    | nil => simp at hk
    | cons x l =>
      have hk1 : k ≤ l.length := by simpa using hk
      simp [BoundedQ.popN, BoundedQ.Pop, Outcome.bind, ih l hk1]

/-- C14: after pushing x1..xk onto an empty BoundedQ, Size() is k, Front() is
x1, k successive Pop() return x1..xk in that order and leave the queue empty;
the Pop after i earlier ones returns the element at index i, takes Size() down
by one and leaves the later elements in their order; IsEmpty() holds exactly
when Size() is 0; after Clear() the queue is empty. -/
theorem BoundedQ_fifo {α : Type} (capacity : Nat) (xs : List α) :
    ((BoundedQ.create capacity).pushAll xs).Size = xs.length ∧
    (∀ x rest, xs = x :: rest → ((BoundedQ.create capacity).pushAll xs).Front = Outcome.ret x) ∧
    ((BoundedQ.create capacity).pushAll xs).popN xs.length
      = Outcome.ret (xs, { q_ := [] }) ∧
    (∀ i x, xs[i]? = some x →
      ((BoundedQ.create capacity).pushAll xs).popN i
        = Outcome.ret (xs.take i, { q_ := xs.drop i }) ∧
      BoundedQ.Pop { q_ := xs.drop i } = Outcome.ret (x, { q_ := xs.drop (i + 1) }) ∧
      BoundedQ.Size ({ q_ := xs.drop (i + 1) } : BoundedQ α) + 1
        = BoundedQ.Size ({ q_ := xs.drop i } : BoundedQ α)) ∧
    (∀ q : BoundedQ α, q.IsEmpty = true ↔ q.Size = 0) ∧
    (∀ q : BoundedQ α, q.Clear.IsEmpty = true ∧ q.Clear.Size = 0) := by
  have hq : (BoundedQ.create capacity).pushAll xs = ({ q_ := xs } : BoundedQ α) := by
    have h := pushAll_q_ (BoundedQ.create capacity : BoundedQ α) xs
    cases hp : (BoundedQ.create capacity : BoundedQ α).pushAll xs with
    | mk l =>
      rw [hp] at h
      simp only [BoundedQ.create, List.nil_append] at h
      rw [h]
  rw [hq]
  refine ⟨rfl, ?_, ?_, ?_, ?_, ?_⟩
  · intro x rest h
    subst h
    rfl
  · have h := popN_take_drop xs.length xs (le_refl _)
    simpa using h
  · intro i x hi
    have hlt : i < xs.length := by
      by_contra hge
      rw [List.getElem?_eq_none (by omega)] at hi
      exact absurd hi (by simp)
    have hx : xs[i] = x := by
      rw [List.getElem?_eq_getElem hlt] at hi
      exact Option.some.inj hi
    have hd : xs.drop i = x :: xs.drop (i + 1) := by
      rw [← hx]; exact List.drop_eq_getElem_cons hlt
    refine ⟨popN_take_drop i xs (le_of_lt hlt), ?_, ?_⟩
    · simp [BoundedQ.Pop, hd]
    · simp only [BoundedQ.Size, List.length_drop]; omega
  · intro q
    simp [BoundedQ.IsEmpty, BoundedQ.Size, List.isEmpty_iff]
  · intro q
    exact ⟨rfl, rfl⟩

/-- C14 at the queue after pushing 7, 8, 9 into a queue of capacity 2: the
second Pop returns 8 and leaves 9. -/
theorem BoundedQ_fifo_witness :
    ((BoundedQ.create 2).pushAll [7, 8, 9]).popN 1 = Outcome.ret ([7], { q_ := [8, 9] }) ∧
    BoundedQ.Pop { q_ := [8, 9] } = Outcome.ret (8, { q_ := [9] }) :=
  have h := (BoundedQ_fifo 2 [7, 8, 9]).2.2.2.1 1 8 (by decide)
  ⟨h.1, h.2.1⟩

end BBlocks
